import Mathlib

/-!
Verification development for meshio's `h5m_io` module (`src/meshio/h5m_io.py`).

The module translates between an in-memory mesh (points, cells, tagged
point/cell data) and the hierarchical H5M container layout.  We embed the
container as a Lean structure and the two entry points `read` and `write`
as pure functions on it; fallible paths return `Except`.

Modelling conventions:
* Numeric payloads (coordinates, tag values, connectivity entries) are
  modelled over `Int`.  The code performs no arithmetic on coordinates or
  tag values, and only the `+ 1` / `- 1` shift on connectivity, so `Int`
  captures the data flow exactly.
* `numpy.empty(n)` returns an *uninitialized* array; we model the
  allocator as an explicit parameter `alloc : Nat → List Int` threaded
  into `read`, so the unspecified contents are visible in theorems.
* Python / numpy negative-index *wrapping* on slice bounds is not
  modelled (slice bounds are clamped at 0); theorems about the set
  decoder therefore carry nonnegativity hypotheses on the cursor values,
  matching the file layout the decoder is written for.  Negative fancy
  indices in `a[idx] = v` (which numpy wraps silently) ARE modelled,
  since they are reachable from well-formed cursors.
-/

namespace H5MIO

/-- Binary digits of a natural number, least significant first (no
digits for 0).  The first argument is fuel making the `n / 2` recursion
structural; `n` itself is always enough fuel, since a positive number
has at most as many binary digits as its value. -/
def bitsLSBAux : Nat → Nat → List Bool
  | _, 0 => []
  | 0, _ + 1 => []
  | fuel + 1, n + 1 => decide ((n + 1) % 2 = 1) :: bitsLSBAux fuel ((n + 1) / 2)

/-- Binary digits of `n`, least significant first. -/
def bitsLSB (n : Nat) : List Bool := bitsLSBAux n n

/-- Embedding of `_int_to_bool_list` (h5m_io.py lines 15-18):
`format(num, '04b')` produces the binary string of `num`, zero-padded on
the left to at least 4 characters; the string is reversed and each
character compared to `'1'`.  Reversal makes the list least-significant
bit first, and the left zero-padding becomes trailing `false` entries. -/
def _int_to_bool_list (num : Nat) : List Bool :=
  let b := bitsLSB num
  b ++ List.replicate (4 - b.length) false

/-- The range-compressed flag used by the set decoder: element 3 of the
bit list of the row's flag word (`bits[3]` in the source).  Row fields
come from the file as integers; negative flag words (not produced by any
writer) are clamped. -/
def is_range_compressed (flags : Int) : Bool :=
  (_int_to_bool_list flags.toNat).getD 3 false

/-- A tag dataset: either a flat per-entity scalar array, or an n-by-k
array (stored by the writer as n entries of a k-tuple type, which reads
back as the same n-by-k values). -/
inductive TagArray where
  | scalar (vals : List Int)
  | tuples (vals : List (List Int))
  deriving DecidableEq, Repr

/-- Entry of the global `tstt/tags` registry written per point tag:
the element type descriptor (tuple or not) and the storage class
attribute (always 2 = dense). -/
structure GlobalTag where
  isTuple : Bool
  cls : Int
  deriving DecidableEq, Repr

/-- One row of the `tstt/sets/list` dataset (a 4-column array).
`rowEnd` is column 0: the inclusive end index into the flat `contents`
array for this row's membership data.  Column 3 is the flag word. -/
structure SetRow where
  rowEnd : Int
  childEnd : Int
  parentEnd : Int
  flags : Int
  deriving DecidableEq, Repr

/-- The `tstt/sets` group.  `contents` is `some` exactly when the
`contents` dataset exists (the writer creates the group without it). -/
structure SetsGroup where
  contents : Option (List Int)
  setList : List SetRow
  tags : List (String × List Int)
  deriving DecidableEq, Repr

/-- One element block under `tstt/elements` (e.g. `Tri3`): the
`element_type` attribute, the `connectivity` dataset with its
`start_id` attribute, and the optional `tags` subgroup. -/
structure ElemGroup where
  element_type : Int
  connectivity : List (List Int)
  conn_start_id : Int
  tags : Option (List (String × TagArray))
  deriving DecidableEq, Repr

/-- The H5M container: the parts of the `tstt` tree that `read` and
`write` touch.  `max_id` is the top-level attribute written with dtype
`u8` (unsigned 64-bit), hence reduced mod 2^64 on write. -/
structure H5MFile where
  coordinates : List (List Int)
  coords_start_id : Int
  node_tags : Option (List (String × TagArray))
  global_tags : List (String × GlobalTag)
  elements : List (String × ElemGroup)
  sets : Option SetsGroup
  max_id : Nat
  deriving DecidableEq, Repr

/-- A 2-d numpy array: the declared row width (`shape[1]`) plus the rows. -/
structure NdArray2 where
  width : Nat
  rows : List (List Int)
  deriving DecidableEq, Repr

/-- Error raised by `write`: the `h5m_type[cells.shape[1]]` lookup fails
(KeyError) for any row width outside {2, 3, 4}. -/
inductive WriteErr where
  | unsupportedCellWidth
  deriving DecidableEq, Repr

/-- The `h5m_type` table (h5m_io.py lines 200-204): number of nodes per
cell to element block name and element type code. -/
def h5m_type (w : Nat) : Option (String × Int) :=
  match w with
  | 2 => some ("Edge2", 1)
  | 3 => some ("Tri3", 2)
  | 4 => some ("Tet4", 5)
  | _ => none

/-- Storing one point tag (h5m_io.py lines 140-168): a 1-d array is
stored as-is, an n-by-k array is stored as n entries of a k-tuple dtype
(same values on read-back); the global registry records the dtype and
the dense storage class 2. -/
def writePointTag (d : TagArray) : TagArray × GlobalTag :=
  match d with
  | .scalar v => (.scalar v, ⟨false, 2⟩)
  | .tuples v => (.tuples v, ⟨true, 2⟩)

/-- Embedding of `write` (h5m_io.py lines 109-226).  The global-ID
counter starts at 1, is recorded as the coordinate dataset's `start_id`,
advances by the point count, is recorded as the connectivity dataset's
`start_id`, advances by the cell count, and is finally stored as the
`max_id` attribute with unsigned 64-bit dtype.  Connectivity is written
as `cells + 1`.  `point_data=None` omits the node tags group (but an
empty dict still creates it); cell tags are written only when the dict
is truthy (non-None and non-empty).  The sets group is always created
with an empty tags subgroup and no contents dataset. -/
def write (points : List (List Int)) (cells : NdArray2)
    (point_data : Option (List (String × TagArray)))
    (cell_data : Option (List (String × TagArray))) :
    Except WriteErr H5MFile :=
  let N := points.length
  match h5m_type cells.width with
  | none => .error .unsupportedCellWidth
  | some nt =>
      .ok
        { coordinates := points
          coords_start_id := 1
          node_tags :=
            point_data.map (fun l => l.map (fun p => (p.1, (writePointTag p.2).1)))
          global_tags :=
            (point_data.map (fun l => l.map (fun p => (p.1, (writePointTag p.2).2)))).getD []
          elements :=
            [(nt.1,
              { element_type := nt.2
                connectivity := cells.rows.map (fun r => r.map (fun x => x + 1))
                conn_start_id := 1 + (N : Int)
                tags :=
                  match cell_data with
                  | some l => if l.isEmpty then none else some l
                  | none => none })]
          sets := some ⟨none, [], []⟩
          max_id := (1 + N + cells.rows.length) % 2 ^ 64 }

/-- Errors `read` can raise, one constructor per distinct Python failure
site. -/
inductive ReadErr where
  /-- `RuntimeError('Need Tri3s or Tet4s.')` (line 47). -/
  | needTriOrTet
  /-- KeyError: `elems['tags']` or `elems['tags']['GLOBAL_ID']` missing
  (line 72). -/
  | keyError
  /-- Modelling artefact: a non-1-d `GLOBAL_ID` tag dataset (the Python
  code would fail on the array-shaped assert; no writer produces this). -/
  | badGlobalIdShape
  /-- The contiguity `assert` on line 74 fails. -/
  | assertFailed
  /-- `RuntimeError('')` for a range-compressed run outside the element
  block's global-ID range (line 99). -/
  | runtimeError
  /-- numpy `IndexError`: a fancy index out of bounds (line 102), or
  `value[k]` with too few tag values (lines 96/102). -/
  | indexError
  deriving DecidableEq, Repr

/-- The tuple `read` returns. -/
structure ReadResult where
  points : List (List Int)
  cells : List (List Int)
  point_data : List (String × TagArray)
  cell_data : List (String × TagArray)
  field_data : List (String × TagArray)
  deriving DecidableEq, Repr

/-- Element block selection (h5m_io.py lines 42-47): `Tri3` first, then
`Tet4`, else `RuntimeError('Need Tri3s or Tet4s.')`. -/
def selectElems (es : List (String × ElemGroup)) : Except ReadErr ElemGroup :=
  match es.lookup "Tri3" with
  | some e => .ok e
  | none =>
      match es.lookup "Tet4" with
      | some e => .ok e
      | none => .error .needTriOrTet

/-- `elems['tags']['GLOBAL_ID'][()]` (line 72): KeyError when the tags
group or the tag is missing. -/
def getGlobalIds (e : ElemGroup) : Except ReadErr (List Int) :=
  match e.tags with
  | none => .error .keyError
  | some ts =>
      match ts.lookup "GLOBAL_ID" with
      | none => .error .keyError
      | some (.scalar g) => .ok g
      | some (.tuples _) => .error .badGlobalIdShape

/-- The list `[a, a+1, ..., a+n-1]`, i.e. Python's
`range(a, a+n)` as a list of integers. -/
def intRange (a : Int) (n : Nat) : List Int :=
  (List.range n).map (fun i => a + (i : Int))

/-- Python slice `l[start:stop]` for nonnegative bounds (clamped to the
list; negative-index wrapping not modelled, negatives clamp to 0). -/
def pySlice (l : List Int) (start stop : Int) : List Int :=
  (l.take stop.toNat).drop start.toNat

/-- Elements at even positions 0, 2, 4, ... of a list; composed with
`pySlice` this is Python's step-2 slice `l[start:stop:2]`. -/
def everyOther : List Int → List Int
  | [] => []
  | [x] => [x]
  | x :: _ :: rest => x :: everyOther rest

/-- numpy slice assignment `arr[i0:i1] = v` with a scalar right-hand
side and `0 ≤ i0` (the only configuration the decoder reaches): every
position `j` with `i0 ≤ j < i1` is overwritten, bounds clamped to the
array. -/
def sliceAssign (i0 i1 v : Int) : Int → List Int → List Int
  | _, [] => []
  | j, x :: rest =>
      (if i0 ≤ j ∧ j < i1 then v else x) :: sliceAssign i0 i1 v (j + 1) rest

/-- numpy fancy-index assignment `arr[idxs] = v`: an index `i` with
`0 ≤ i < len` writes position `i`; a negative `i` with `-len ≤ i` wraps
and silently writes position `len + i`; anything else raises
`IndexError`. -/
def npFancySet (arr : List Int) (idxs : List Int) (v : Int) :
    Except ReadErr (List Int) :=
  match idxs with
  | [] => .ok arr
  | i :: rest =>
      if 0 ≤ i ∧ i < (arr.length : Int) then
        npFancySet (arr.set i.toNat v) rest v
      else if -(arr.length : Int) ≤ i ∧ i < 0 then
        npFancySet (arr.set ((arr.length : Int) + i).toNat v) rest v
      else .error .indexError

/-- The membership slice of one row: `contents[end : row[0]+1]`
(the inclusive end index `row[0]` made exclusive). -/
def rowSlice (contents : List Int) (endCur : Int) (row : SetRow) : List Int :=
  pySlice contents endCur (row.rowEnd + 1)

/-- The (start_gid, length) pairs of a range-compressed row: even and
odd positions of `contents[end : row[0]+1]` zipped (lines 88-89). -/
def rowPairs (contents : List Int) (endCur : Int) (row : SetRow) :
    List (Int × Int) :=
  (everyOther (rowSlice contents endCur row)).zip
    (everyOther (pySlice contents (endCur + 1) (row.rowEnd + 1)))

/-- Decoding the (start_gid, length) pairs of one range-compressed row
(lines 90-99): runs inside `[cs, ce]` are slice-assigned the row's tag
value; any run outside raises `RuntimeError('')` (point-targeted sets
are unimplemented). -/
def decodePairs (cs ce v : Int) : List (Int × Int) → List Int →
    Except ReadErr (List Int)
  | [], arr => .ok arr
  | (s, len) :: rest, arr =>
      let e := s + len - 1
      if s ≥ cs ∧ e ≤ ce then
        decodePairs cs ce v rest (sliceAssign (s - cs) (e - cs + 1) v 0 arr)
      else .error .runtimeError

/-- Decoding one row of the sets `list` dataset (lines 82-102) against
the running cursor `endCur`: range-compressed rows go through
`decodePairs`; otherwise `contents[end : row[0]+1]` is a direct list of
global IDs fancy-assigned at positions `gid - cs`. -/
def decodeSetRow (contents : List Int) (cs ce endCur : Int) (row : SetRow)
    (v : Int) (arr : List Int) : Except ReadErr (List Int) :=
  if is_range_compressed row.flags then
    decodePairs cs ce v (rowPairs contents endCur row) arr
  else
    npFancySet arr ((rowSlice contents endCur row).map (fun g => g - cs)) v

/-- The row loop for one set tag (lines 80-104): rows are processed in
order with row index `k` (for `value[k]`) and the cursor `endCur`,
which advances to `row[0] + 1` after every row regardless of branch. -/
def decodeTagRows (contents : List Int) (cs ce : Int) (vals : List Int) :
    List SetRow → Nat → Int → List Int → Except ReadErr (List Int)
  | [], _, _, arr => .ok arr
  | row :: rest, k, endCur, arr =>
      match vals.get? k with
      | none => .error .indexError
      | some v =>
          match decodeSetRow contents cs ce endCur row v arr with
          | .error e => .error e
          | .ok arr2 => decodeTagRows contents cs ce vals rest (k + 1) (row.rowEnd + 1) arr2

/-- Python dict insertion `d[k] = v`: replace the first binding of `k`
in place, else append at the end. -/
def dictInsert (k : String) (v : TagArray) :
    List (String × TagArray) → List (String × TagArray)
  | [] => [(k, v)]
  | p :: rest => if p.1 == k then (k, v) :: rest else p :: dictInsert k v rest

/-- The tag loop over `sets_tags.items()` (lines 77-104): for each set
tag a fresh uninitialized length-`M` array (`numpy.empty`, modelled by
`alloc M`) is decoded through all rows with cursor starting at 0 and
stored in `cell_data` under key `"set::" + tag`. -/
def decodeAllSets (alloc : Nat → List Int) (contents : List Int)
    (rows : List SetRow) (cs ce : Int) (M : Nat) :
    List (String × List Int) → List (String × TagArray) →
    Except ReadErr (List (String × TagArray))
  | [], cd => .ok cd
  | (key, vals) :: rest, cd =>
      match decodeTagRows contents cs ce vals rows 0 0 (alloc M) with
      | .error e => .error e
      | .ok arr =>
          decodeAllSets alloc contents rows cs ce M rest
            (dictInsert ("set::" ++ key) (.scalar arr) cd)

/-- Embedding of `read` (h5m_io.py lines 21-106).  Points and point
tags are read verbatim; the element block is `Tri3` or else `Tet4`;
cells are the connectivity minus 1; cell tags verbatim.  When a sets
group with a contents dataset exists, the block's `GLOBAL_ID` values
plus the connectivity `start_id` must form the contiguous run
`[start_id, start_id + M - 1]` (the line-74 assert), after which every
set tag is decoded into `cell_data` under `"set::" + tag`.
`alloc` models `numpy.empty`'s unspecified contents. -/
def read (alloc : Nat → List Int) (f : H5MFile) : Except ReadErr ReadResult :=
  let points := f.coordinates
  let point_data := (f.node_tags).getD []
  match selectElems f.elements with
  | .error e => .error e
  | .ok elems =>
      let cells := elems.connectivity.map (fun r => r.map (fun x => x - 1))
      let cell_data := (elems.tags).getD []
      match f.sets with
      | none => .ok ⟨points, cells, point_data, cell_data, []⟩
      | some s =>
          match s.contents with
          | none => .ok ⟨points, cells, point_data, cell_data, []⟩
          | some contents =>
              match getGlobalIds elems with
              | .error e => .error e
              | .ok gids =>
                  let cs := elems.conn_start_id
                  if gids.map (fun g => cs + g) = intRange cs gids.length then
                    match decodeAllSets alloc contents s.setList cs
                        (cs + (gids.length : Int) - 1) cells.length s.tags cell_data with
                    | .error e => .error e
                    | .ok cd => .ok ⟨points, cells, point_data, cd, []⟩
                  else .error .assertFailed

/-! Basic lemmas about the embedded operations. -/

theorem row_shift_cancel (r : List Int) :
    (r.map (fun x => x + 1)).map (fun x => x - 1) = r := by
  induction r with
  | nil => rfl
  | cons x xs ih => simp [ih]

theorem cells_shift_cancel (l : List (List Int)) :
    (l.map (fun r => r.map (fun x => x + 1))).map (fun r => r.map (fun x => x - 1)) = l := by
  induction l with
  | nil => rfl
  | cons r rest ih => simp only [List.map_cons]; rw [row_shift_cancel, ih]

theorem row_shift_cancel_comp (r : List Int) :
    r.map ((fun x => x - 1) ∘ fun x => x + 1) = r := by
  induction r with
  | nil => rfl
  | cons x xs ih => simp [ih]

theorem cells_shift_cancel_comp (l : List (List Int)) :
    l.map (List.map ((fun x => x - 1) ∘ fun x => x + 1)) = l := by
  induction l with
  | nil => rfl
  | cons r rest ih => simp only [List.map_cons]; rw [row_shift_cancel_comp, ih]

theorem writePointTag_fst (d : TagArray) : (writePointTag d).1 = d := by
  cases d <;> rfl

theorem selectElems_single (nm : String) (h : nm = "Tri3" ∨ nm = "Tet4")
    (g : ElemGroup) : selectElems [(nm, g)] = .ok g := by
  rcases h with rfl | rfl <;> rfl

theorem node_tags_roundtrip (pd : Option (List (String × TagArray))) :
    (pd.map (fun l => l.map (fun p => (p.1, (writePointTag p.2).1)))).getD []
      = pd.getD [] := by
  cases pd with
  | none => rfl
  | some l => simp [writePointTag_fst]

theorem cell_tags_flatten (cd : Option (List (String × TagArray))) :
    (match cd with
      | some l => if l.isEmpty then none else some l
      | none => none).getD [] = cd.getD [] := by
  cases cd with
  | none => rfl
  | some l => cases l <;> simp

theorem getD_set (l : List Int) : ∀ (k j : Nat) (v : Int),
    (l.set k v).getD j 0 = if k = j ∧ j < l.length then v else l.getD j 0 := by
  induction l with
  | nil => intro k j v; simp
  | cons x rest ih =>
      intro k j v
      cases k with
      | zero =>
          cases j with
          | zero => simp
          | succ j => simp
      | succ k =>
          cases j with
          | zero => simp
          | succ j => simpa using ih k j v

theorem sliceAssign_length (i0 i1 v : Int) :
    ∀ (arr : List Int) (j0 : Int), (sliceAssign i0 i1 v j0 arr).length = arr.length := by
  intro arr
  induction arr with
  | nil => intro j0; rfl
  | cons x rest ih => intro j0; simp [sliceAssign, ih]

theorem sliceAssign_getD (i0 i1 v : Int) :
    ∀ (arr : List Int) (j0 : Int) (j : Nat),
      (sliceAssign i0 i1 v j0 arr).getD j 0 =
        if i0 ≤ j0 + (j : Int) ∧ j0 + (j : Int) < i1 ∧ j < arr.length then v
        else arr.getD j 0 := by
  intro arr
  induction arr with
  | nil => intro j0 j; simp [sliceAssign]
  | cons x rest ih =>
      intro j0 j
      cases j with
      | zero =>
          simp only [sliceAssign, List.getD_cons_zero, Nat.cast_zero, add_zero,
            List.length_cons]
          split_ifs <;> first | rfl | omega
      | succ j =>
          simp only [sliceAssign, List.getD_cons_succ, List.length_cons]
          rw [ih (j0 + 1) j]
          split_ifs <;> first | rfl | (exfalso; push_cast at *; omega)

/-- The cell index actually written by a numpy fancy index `i` on an
array of length `len`: `i` itself when `0 ≤ i`, the wrapped `len + i`
when `i` is negative. -/
def npNormIdx (len : Nat) (i : Int) : Nat :=
  (if 0 ≤ i then i else (len : Int) + i).toNat

theorem npFancySet_ok (v : Int) (idxs : List Int) :
    ∀ (arr : List Int),
      (∀ i ∈ idxs, -(arr.length : Int) ≤ i ∧ i < arr.length) →
      ∃ res, npFancySet arr idxs v = .ok res ∧ res.length = arr.length ∧
        ∀ j : Nat, res.getD j 0 =
          if ∃ i ∈ idxs, npNormIdx arr.length i = j then v else arr.getD j 0 := by
  induction idxs with
  | nil => intro arr _; exact ⟨arr, rfl, rfl, fun j => by simp⟩
  | cons i rest ih =>
      intro arr h
      obtain ⟨hi1, hi2⟩ := h i (List.mem_cons_self i rest)
      have hrest : ∀ x ∈ rest, -(arr.length : Int) ≤ x ∧ x < arr.length :=
        fun x hx => h x (List.mem_cons_of_mem _ hx)
      by_cases h0 : 0 ≤ i
      · have hnorm : npNormIdx arr.length i = i.toNat := by
          simp [npNormIdx, h0]
        have harr : (arr.set i.toNat v).length = arr.length := by simp
        obtain ⟨res, hres, hlen, hget⟩ :=
          ih (arr.set i.toNat v) (by rw [harr]; exact hrest)
        rw [harr] at hget hlen
        refine ⟨res, ?_, hlen, ?_⟩
        · rw [npFancySet, if_pos ⟨h0, hi2⟩]; exact hres
        · intro j
          rw [hget j, getD_set]
          by_cases hA : ∃ x ∈ rest, npNormIdx arr.length x = j
          · rw [if_pos hA, if_pos
              (let ⟨x, h1, h2⟩ := hA; ⟨x, List.mem_cons_of_mem _ h1, h2⟩)]
          · rw [if_neg hA]
            by_cases hij : i.toNat = j
            · rw [if_pos ⟨hij, by omega⟩,
                if_pos ⟨i, List.mem_cons_self i rest, by rw [hnorm]; exact hij⟩]
            · rw [if_neg (fun hc => hij hc.1), if_neg ?_]
              rintro ⟨x, hmem, hnx⟩
              rcases List.mem_cons.mp hmem with rfl | hm
              · exact hij (by rw [← hnorm]; exact hnx)
              · exact hA ⟨x, hm, hnx⟩
      · have hineg : i < 0 := by omega
        have hnorm : npNormIdx arr.length i = ((arr.length : Int) + i).toNat := by
          simp [npNormIdx, h0]
        have harr : (arr.set ((arr.length : Int) + i).toNat v).length = arr.length := by
          simp
        obtain ⟨res, hres, hlen, hget⟩ :=
          ih (arr.set ((arr.length : Int) + i).toNat v) (by rw [harr]; exact hrest)
        rw [harr] at hget hlen
        refine ⟨res, ?_, hlen, ?_⟩
        · rw [npFancySet, if_neg (fun hc => h0 hc.1), if_pos ⟨hi1, hineg⟩]
          exact hres
        · intro j
          rw [hget j, getD_set]
          by_cases hA : ∃ x ∈ rest, npNormIdx arr.length x = j
          · rw [if_pos hA, if_pos
              (let ⟨x, h1, h2⟩ := hA; ⟨x, List.mem_cons_of_mem _ h1, h2⟩)]
          · rw [if_neg hA]
            by_cases hij : ((arr.length : Int) + i).toNat = j
            · rw [if_pos ⟨hij, by omega⟩,
                if_pos ⟨i, List.mem_cons_self i rest, by rw [hnorm]; exact hij⟩]
            · rw [if_neg (fun hc => hij hc.1), if_neg ?_]
              rintro ⟨x, hmem, hnx⟩
              rcases List.mem_cons.mp hmem with rfl | hm
              · exact hij (by rw [← hnorm]; exact hnx)
              · exact hA ⟨x, hm, hnx⟩

theorem npFancySet_error (v : Int) (idxs : List Int) :
    ∀ (arr : List Int),
      (∃ i ∈ idxs, i < -(arr.length : Int) ∨ (arr.length : Int) ≤ i) →
      npFancySet arr idxs v = .error .indexError := by
  induction idxs with
  | nil => rintro arr ⟨i, hmem, -⟩; cases hmem
  | cons i rest ih =>
      rintro arr ⟨x, hmem, hbad⟩
      rw [npFancySet]
      by_cases h1 : 0 ≤ i ∧ i < (arr.length : Int)
      · rw [if_pos h1]
        apply ih
        refine ⟨x, ?_, ?_⟩
        · rcases List.mem_cons.mp hmem with rfl | hm
          · exact absurd hbad (by omega)
          · exact hm
        · simpa using hbad
      · rw [if_neg h1]
        by_cases h2 : -(arr.length : Int) ≤ i ∧ i < 0
        · rw [if_pos h2]
          apply ih
          refine ⟨x, ?_, ?_⟩
          · rcases List.mem_cons.mp hmem with rfl | hm
            · exact absurd hbad (by omega)
            · exact hm
          · simpa using hbad
        · rw [if_neg h2]

theorem decodePairs_ok (cs ce v : Int) (ps : List (Int × Int)) :
    ∀ (arr : List Int),
      (∀ p ∈ ps, cs ≤ p.1 ∧ p.1 + p.2 - 1 ≤ ce) →
      ∃ res, decodePairs cs ce v ps arr = .ok res ∧ res.length = arr.length ∧
        ∀ j : Nat, res.getD j 0 =
          if ∃ p ∈ ps, p.1 - cs ≤ (j : Int) ∧ (j : Int) ≤ p.1 + p.2 - 1 - cs ∧
              j < arr.length
          then v else arr.getD j 0 := by
  induction ps with
  | nil => intro arr _; exact ⟨arr, rfl, rfl, fun j => by simp⟩
  | cons q rest ih =>
      obtain ⟨s, len⟩ := q
      intro arr h
      obtain ⟨hs, he⟩ := h (s, len) (List.mem_cons_self _ rest)
      have hrest : ∀ p ∈ rest, cs ≤ p.1 ∧ p.1 + p.2 - 1 ≤ ce :=
        fun p hp => h p (List.mem_cons_of_mem _ hp)
      have harr : (sliceAssign (s - cs) (s + len - 1 - cs + 1) v 0 arr).length
          = arr.length := sliceAssign_length _ _ _ _ _
      obtain ⟨res, hres, hlen, hget⟩ :=
        ih (sliceAssign (s - cs) (s + len - 1 - cs + 1) v 0 arr)
          (by rw [harr] at *; exact hrest)
      rw [harr] at hget hlen
      refine ⟨res, ?_, hlen, ?_⟩
      · simp only [decodePairs]
        rw [if_pos ⟨hs, he⟩]
        exact hres
      · intro j
        rw [hget j, sliceAssign_getD]
        by_cases hA : ∃ p ∈ rest, p.1 - cs ≤ (j : Int) ∧
            (j : Int) ≤ p.1 + p.2 - 1 - cs ∧ j < arr.length
        · rw [if_pos hA, if_pos
            (let ⟨p, h1, h2⟩ := hA; ⟨p, List.mem_cons_of_mem _ h1, h2⟩)]
        · rw [if_neg hA]
          by_cases hj : s - cs ≤ 0 + (j : Int) ∧ 0 + (j : Int) < s + len - 1 - cs + 1 ∧
              j < arr.length
          · rw [if_pos hj, if_pos
              ⟨(s, len), List.mem_cons_self _ rest, by constructor <;> omega⟩]
          · rw [if_neg hj, if_neg ?_]
            rintro ⟨p, hmem, hc1, hc2, hc3⟩
            rcases List.mem_cons.mp hmem with rfl | hm
            · exact hj (by constructor <;> [omega; constructor <;> omega])
            · exact hA ⟨p, hm, hc1, hc2, hc3⟩

theorem decodePairs_error (cs ce v : Int) (ps : List (Int × Int)) :
    ∀ (arr : List Int),
      (∃ p ∈ ps, ¬(cs ≤ p.1 ∧ p.1 + p.2 - 1 ≤ ce)) →
      decodePairs cs ce v ps arr = .error .runtimeError := by
  induction ps with
  | nil => rintro arr ⟨p, hmem, -⟩; cases hmem
  | cons q rest ih =>
      obtain ⟨s, len⟩ := q
      rintro arr ⟨p, hmem, hbad⟩
      simp only [decodePairs]
      by_cases hq : s ≥ cs ∧ s + len - 1 ≤ ce
      · rw [if_pos hq]
        apply ih
        rcases List.mem_cons.mp hmem with rfl | hm
        · exact absurd ⟨hq.1, hq.2⟩ hbad
        · exact ⟨p, hm, hbad⟩
      · rw [if_neg hq]

theorem decodeSetRow_compressed_ok (contents : List Int)
    (cs ce endCur : Int) (row : SetRow) (v : Int) (arr : List Int)
    (hflag : is_range_compressed row.flags = true)
    (hin : ∀ p ∈ rowPairs contents endCur row, cs ≤ p.1 ∧ p.1 + p.2 - 1 ≤ ce) :
    ∃ res, decodeSetRow contents cs ce endCur row v arr = .ok res ∧
      res.length = arr.length ∧
      ∀ j : Nat, res.getD j 0 =
        if ∃ p ∈ rowPairs contents endCur row,
            p.1 - cs ≤ (j : Int) ∧ (j : Int) ≤ p.1 + p.2 - 1 - cs ∧ j < arr.length
        then v else arr.getD j 0 := by
  rw [decodeSetRow, if_pos hflag]
  exact decodePairs_ok cs ce v (rowPairs contents endCur row) arr hin

theorem npFancySet_ne_need (idxs : List Int) :
    ∀ arr v, npFancySet arr idxs v ≠ .error .needTriOrTet := by
  induction idxs with
  | nil => intro arr v h; exact absurd h (by simp [npFancySet])
  | cons i rest ih =>
      intro arr v h
      simp only [npFancySet] at h
      split_ifs at h
      · exact ih _ _ h
      · exact ih _ _ h
      · exact absurd h (by simp)

theorem decodePairs_ne_need (cs ce v : Int) (ps : List (Int × Int)) :
    ∀ arr, decodePairs cs ce v ps arr ≠ .error .needTriOrTet := by
  induction ps with
  | nil => intro arr h; exact absurd h (by simp [decodePairs])
  | cons p rest ih =>
      intro arr h
      obtain ⟨s, len⟩ := p
      simp only [decodePairs] at h
      split_ifs at h
      · exact ih _ h
      · exact absurd h (by simp)

theorem decodeSetRow_ne_need (contents : List Int) (cs ce endCur : Int)
    (row : SetRow) (v : Int) (arr : List Int) :
    decodeSetRow contents cs ce endCur row v arr ≠ .error .needTriOrTet := by
  intro h
  simp only [decodeSetRow] at h
  split_ifs at h
  · exact decodePairs_ne_need _ _ _ _ _ h
  · exact npFancySet_ne_need _ _ _ h

theorem decodeTagRows_ne_need (contents : List Int) (cs ce : Int)
    (vals : List Int) (rows : List SetRow) :
    ∀ k endCur arr,
      decodeTagRows contents cs ce vals rows k endCur arr ≠ .error .needTriOrTet := by
  induction rows with
  | nil => intro k endCur arr h; exact absurd h (by simp [decodeTagRows])
  | cons row rest ih =>
      intro k endCur arr h
      simp only [decodeTagRows] at h
      split at h
      · exact absurd h (by simp)
      · split at h
        · rename_i heq
          simp only [Except.error.injEq] at h
          subst h
          exact decodeSetRow_ne_need _ _ _ _ _ _ _ heq
        · exact ih _ _ _ h

theorem decodeAllSets_ne_need (alloc : Nat → List Int) (contents : List Int)
    (rows : List SetRow) (cs ce : Int) (M : Nat)
    (tags : List (String × List Int)) :
    ∀ cd, decodeAllSets alloc contents rows cs ce M tags cd ≠ .error .needTriOrTet := by
  induction tags with
  | nil => intro cd h; exact absurd h (by simp [decodeAllSets])
  | cons t rest ih =>
      intro cd h
      obtain ⟨key, vals⟩ := t
      simp only [decodeAllSets] at h
      cases hr : decodeTagRows contents cs ce vals rows 0 0 (alloc M) with
      | error e =>
          rw [hr] at h
          simp only [Except.error.injEq] at h
          exact decodeTagRows_ne_need _ _ _ _ _ _ _ _ (h ▸ hr)
      | ok arr => rw [hr] at h; exact ih _ h

theorem getGlobalIds_ne_need (e : ElemGroup) :
    getGlobalIds e ≠ .error .needTriOrTet := by
  intro h
  unfold getGlobalIds at h
  split at h
  · simp at h
  · split at h
    · simp at h
    · simp at h
    · simp at h

/-! Claim theorems. -/

/-- C9: for every `num` with `0 ≤ num < 16`, `_int_to_bool_list num` is
a list of exactly 4 booleans whose element `i` is true iff bit `i` of
`num` is set, least significant bit first; element 3 is the
range-compressed flag used by set decoding. -/
theorem int_to_bool_list_bits :
    ∀ num : Nat, num < 16 →
      (_int_to_bool_list num).length = 4 ∧
      (∀ i : Nat, i < 4 → (_int_to_bool_list num).getD i false = num.testBit i) ∧
      is_range_compressed (num : Int) = (_int_to_bool_list num).getD 3 false := by
  decide

/-- Concrete instance of `int_to_bool_list_bits` at `num = 13`. -/
theorem int_to_bool_list_bits_witness :
    (_int_to_bool_list 13).length = 4 ∧
      (∀ i : Nat, i < 4 →
        (_int_to_bool_list 13).getD i false = (13 : Nat).testBit i) ∧
      is_range_compressed ((13 : Nat) : Int) = (_int_to_bool_list 13).getD 3 false :=
  int_to_bool_list_bits 13 (by decide)

/-- C1: for a mesh whose cells have row width 3 or 4 and any point/cell
tag mappings with scalar or n-by-k values, writing then reading
reproduces points, cells, and every tag array exactly (the write-side
`+1` and read-side `-1` connectivity shifts cancel), and when zero tags
were written the returned tag mappings are empty. -/
theorem write_read_round_trip (alloc : Nat → List Int)
    (points : List (List Int)) (cells : NdArray2)
    (pd cd : Option (List (String × TagArray)))
    (hw : cells.width = 3 ∨ cells.width = 4) :
    ∃ f, write points cells pd cd = .ok f ∧
      read alloc f = .ok ⟨points, cells.rows, pd.getD [], cd.getD [], []⟩ ∧
      ((pd = none ∨ pd = some []) → (cd = none ∨ cd = some []) →
        read alloc f = .ok ⟨points, cells.rows, [], [], []⟩) := by
  obtain ⟨w, rows⟩ := cells
  simp only at hw
  rcases hw with h | h <;> subst h
  · refine ⟨_, rfl, ?_, ?_⟩
    · simp only [read, selectElems_single "Tri3" (Or.inl rfl)]
      simp [node_tags_roundtrip]
      refine ⟨cells_shift_cancel_comp rows, ?_⟩
      cases cd with
      | none => rfl
      | some l => cases l <;> simp
    · rintro (rfl | rfl) (rfl | rfl) <;>
        · simp only [read, selectElems_single "Tri3" (Or.inl rfl)]
          simp [cells_shift_cancel_comp]
  · refine ⟨_, rfl, ?_, ?_⟩
    · simp only [read, selectElems_single "Tet4" (Or.inr rfl)]
      simp [node_tags_roundtrip]
      refine ⟨cells_shift_cancel_comp rows, ?_⟩
      cases cd with
      | none => rfl
      | some l => cases l <;> simp
    · rintro (rfl | rfl) (rfl | rfl) <;>
        · simp only [read, selectElems_single "Tet4" (Or.inr rfl)]
          simp [cells_shift_cancel_comp]

/-- Concrete instance of `write_read_round_trip`: a one-triangle mesh
with a 3-by-2 point tag and a scalar cell tag survives the round trip. -/
theorem write_read_round_trip_witness :
    ∃ f, write [[0,0,0],[1,0,0],[0,1,0]] ⟨3, [[0,1,2]]⟩
        (some [("T", TagArray.tuples [[1,2],[3,4],[5,6]])])
        (some [("C", TagArray.scalar [9])]) = .ok f ∧
      read (fun n => List.replicate n 0) f =
        .ok ⟨[[0,0,0],[1,0,0],[0,1,0]], [[0,1,2]],
          [("T", TagArray.tuples [[1,2],[3,4],[5,6]])],
          [("C", TagArray.scalar [9])], []⟩ := by
  obtain ⟨f, h1, h2, -⟩ :=
    write_read_round_trip (fun n => List.replicate n 0)
      [[0,0,0],[1,0,0],[0,1,0]] ⟨3, [[0,1,2]]⟩
      (some [("T", TagArray.tuples [[1,2],[3,4],[5,6]])])
      (some [("C", TagArray.scalar [9])]) (Or.inl rfl)
  exact ⟨f, h1, h2⟩

/-- C2: writing N points and M cells records `start_id = 1` on the
coordinate dataset, `start_id = 1 + N` on the connectivity dataset, and
`max_id = 1 + N + M` (as an unsigned 64-bit value) at top level. -/
theorem write_start_ids_max_id (points : List (List Int)) (cells : NdArray2)
    (pd cd : Option (List (String × TagArray))) (f : H5MFile)
    (h : write points cells pd cd = .ok f) :
    f.coords_start_id = 1 ∧
    (∃ name g, f.elements = [(name, g)] ∧
      g.conn_start_id = 1 + (points.length : Int)) ∧
    f.max_id = (1 + points.length + cells.rows.length) % 2 ^ 64 := by
  unfold write at h
  cases hw : h5m_type cells.width with
  | none => rw [hw] at h; exact absurd h (by simp)
  | some nt =>
      rw [hw] at h
      simp only [Except.ok.injEq] at h
      subst h
      exact ⟨rfl, ⟨nt.1, _, rfl, rfl⟩, rfl⟩

/-- Concrete instance of `write_start_ids_max_id`: 3 points, 1 triangle. -/
theorem write_start_ids_max_id_witness :
    ∃ f, write [[0,0,0],[1,0,0],[0,1,0]] ⟨3, [[0,1,2]]⟩ none none = .ok f ∧
      (f.coords_start_id = 1 ∧
        (∃ name g, f.elements = [(name, g)] ∧
          g.conn_start_id = 1 + (([[0,0,0],[1,0,0],[0,1,0]] : List (List Int)).length : Int)) ∧
        f.max_id = (1 + ([[0,0,0],[1,0,0],[0,1,0]] : List (List Int)).length
          + ([[0,1,2]] : List (List Int)).length) % 2 ^ 64) := by
  have h : write [[0,0,0],[1,0,0],[0,1,0]] ⟨3, [[0,1,2]]⟩ none none =
      .ok { coordinates := [[0,0,0],[1,0,0],[0,1,0]]
            coords_start_id := 1
            node_tags := none
            global_tags := []
            elements := [("Tri3",
              { element_type := 2
                connectivity := [[1,2,3]]
                conn_start_id := 4
                tags := none })]
            sets := some ⟨none, [], []⟩
            max_id := 5 } := by rfl
  exact ⟨_, h, write_start_ids_max_id _ _ _ _ _ h⟩

/-- C4: the element block name and category code are determined solely
by the cell row width — 2 gives `Edge2`/1, 3 gives `Tri3`/2, 4 gives
`Tet4`/5 — and every other width makes `write` fail with the
unsupported-width error. -/
theorem write_width_dispatch (points : List (List Int)) (cells : NdArray2)
    (pd cd : Option (List (String × TagArray))) :
    (cells.width = 2 → ∃ f g, write points cells pd cd = .ok f ∧
      f.elements = [("Edge2", g)] ∧ g.element_type = 1) ∧
    (cells.width = 3 → ∃ f g, write points cells pd cd = .ok f ∧
      f.elements = [("Tri3", g)] ∧ g.element_type = 2) ∧
    (cells.width = 4 → ∃ f g, write points cells pd cd = .ok f ∧
      f.elements = [("Tet4", g)] ∧ g.element_type = 5) ∧
    (cells.width ≠ 2 → cells.width ≠ 3 → cells.width ≠ 4 →
      write points cells pd cd = .error .unsupportedCellWidth) := by
  obtain ⟨w, rows⟩ := cells
  refine ⟨fun h => ?_, fun h => ?_, fun h => ?_, fun h2 h3 h4 => ?_⟩
  · subst h; exact ⟨_, _, rfl, rfl, rfl⟩
  · subst h; exact ⟨_, _, rfl, rfl, rfl⟩
  · subst h; exact ⟨_, _, rfl, rfl, rfl⟩
  · simp only at h2 h3 h4 ⊢
    rcases w with _ | _ | _ | _ | _ | w
    · rfl
    · rfl
    · exact absurd rfl h2
    · exact absurd rfl h3
    · exact absurd rfl h4
    · rfl

/-- Concrete instance of `write_width_dispatch` at width 5: the
unsupported-shape failure from the spec's failure scenario. -/
theorem write_width_dispatch_witness :
    write [[0,0,0]] ⟨5, [[0,1,2,3,4]]⟩ none none = .error .unsupportedCellWidth :=
  (write_width_dispatch [[0,0,0]] ⟨5, [[0,1,2,3,4]]⟩ none none).2.2.2
    (by decide) (by decide) (by decide)

/-- C3: `read` selects the element block by checking for a child named
`Tri3` first and `Tet4` second (`Tri3` taking priority when both exist),
and fails with the unsupported-mesh-type error if and only if neither
child is present. -/
theorem read_element_block_selection (alloc : Nat → List Int) (f : H5MFile) :
    (∀ g, f.elements.lookup "Tri3" = some g → selectElems f.elements = .ok g) ∧
    (f.elements.lookup "Tri3" = none →
      ∀ g, f.elements.lookup "Tet4" = some g → selectElems f.elements = .ok g) ∧
    (read alloc f = .error .needTriOrTet ↔
      f.elements.lookup "Tri3" = none ∧ f.elements.lookup "Tet4" = none) := by
  refine ⟨?_, ?_, ?_⟩
  · intro g h; unfold selectElems; rw [h]
  · intro h1 g h2; unfold selectElems; rw [h1, h2]
  · constructor
    · intro h
      cases hsel : selectElems f.elements with
      | ok elems =>
          exfalso
          simp only [read, hsel] at h
          split at h
          · exact absurd h (by simp)
          · split at h
            · exact absurd h (by simp)
            · split at h
              · rename_i heq
                simp only [Except.error.injEq] at h
                subst h
                exact getGlobalIds_ne_need _ heq
              · split at h
                · split at h
                  · rename_i heq
                    simp only [Except.error.injEq] at h
                    subst h
                    exact decodeAllSets_ne_need _ _ _ _ _ _ _ _ heq
                  · exact absurd h (by simp)
                · exact absurd h (by simp)
      | error e =>
          simp only [read, hsel, Except.error.injEq] at h
          subst h
          unfold selectElems at hsel
          cases h1 : f.elements.lookup "Tri3" with
          | some g => rw [h1] at hsel; exact absurd hsel (by simp)
          | none =>
              rw [h1] at hsel
              cases h2 : f.elements.lookup "Tet4" with
              | some g => rw [h2] at hsel; exact absurd hsel (by simp)
              | none => exact ⟨rfl, rfl⟩
    · rintro ⟨h1, h2⟩
      have hsel : selectElems f.elements = .error .needTriOrTet := by
        unfold selectElems; rw [h1, h2]
      simp only [read, hsel]

/-- Concrete instance of `read_element_block_selection`: with both a
`Tri3` and a `Tet4` block present, `Tri3` wins. -/
theorem read_element_block_selection_witness :
    selectElems
      [("Tri3",
        { element_type := 2
          connectivity := [[1,2,3]]
          conn_start_id := 4
          tags := none }),
       ("Tet4",
        { element_type := 5
          connectivity := [[1,2,3,4]]
          conn_start_id := 4
          tags := none })] =
      .ok
        { element_type := 2
          connectivity := [[1,2,3]]
          conn_start_id := 4
          tags := none } :=
  (read_element_block_selection (fun n => List.replicate n 0)
    { coordinates := [[0,0,0]]
      coords_start_id := 1
      node_tags := none
      global_tags := []
      elements :=
        [("Tri3",
          { element_type := 2
            connectivity := [[1,2,3]]
            conn_start_id := 4
            tags := none }),
         ("Tet4",
          { element_type := 5
            connectivity := [[1,2,3,4]]
            conn_start_id := 4
            tags := none })]
      sets := none
      max_id := 5 }).1 _ rfl

/-- C5: whenever a sets group with contents exists, `read` adds the
element block's `GLOBAL_ID` tag values to the connectivity `start_id`
and insists the result is exactly the contiguous ascending run starting
at `start_id`; on failure the read aborts with the fatal assertion
before any set decoding, and set decoding is reached exactly under this
contiguity precondition. -/
theorem read_sets_contiguity_gate (alloc : Nat → List Int) (f : H5MFile)
    (elems : ElemGroup) (s : SetsGroup) (contents gids : List Int)
    (h1 : selectElems f.elements = .ok elems)
    (h2 : f.sets = some s)
    (h3 : s.contents = some contents)
    (h4 : getGlobalIds elems = .ok gids) :
    (gids.map (fun g => elems.conn_start_id + g) ≠
        intRange elems.conn_start_id gids.length →
      read alloc f = .error .assertFailed) ∧
    (gids.map (fun g => elems.conn_start_id + g) =
        intRange elems.conn_start_id gids.length →
      read alloc f =
        match decodeAllSets alloc contents s.setList elems.conn_start_id
            (elems.conn_start_id + (gids.length : Int) - 1)
            elems.connectivity.length s.tags (elems.tags.getD []) with
        | .error e => .error e
        | .ok cd =>
            .ok ⟨f.coordinates,
              elems.connectivity.map (fun r => r.map (fun x => x - 1)),
              (f.node_tags).getD [], cd, []⟩) := by
  constructor <;> intro hc <;> simp only [read, h1, h2, h3, h4]
  · rw [if_neg hc]
  · rw [if_pos hc]
    simp only [List.length_map]

/-- Concrete instance of `read_sets_contiguity_gate`: a 3-cell `Tri3`
block with contiguous global IDs and one range-compressed partition row;
decoding is reached and fills cells 0 and 1. -/
theorem read_sets_contiguity_gate_witness :
    read (fun n => List.replicate n 0)
      { coordinates := [[0,0,0]]
        coords_start_id := 1
        node_tags := none
        global_tags := []
        elements := [("Tri3",
          { element_type := 2
            connectivity := [[1,1,1],[1,1,1],[1,1,1]]
            conn_start_id := 5
            tags := some [("GLOBAL_ID", .scalar [0,1,2])] })]
        sets := some { contents := some [5, 2]
                       setList := [⟨1, 0, 0, 8⟩]
                       tags := [("P", [6])] }
        max_id := 8 } =
      .ok ⟨[[0,0,0]], [[0,0,0],[0,0,0],[0,0,0]], [],
        [("GLOBAL_ID", .scalar [0,1,2]), ("set::P", .scalar [6,6,0])], []⟩ := by
  have h := (read_sets_contiguity_gate (fun n => List.replicate n 0)
    { coordinates := [[0,0,0]]
      coords_start_id := 1
      node_tags := none
      global_tags := []
      elements := [("Tri3",
        { element_type := 2
          connectivity := [[1,1,1],[1,1,1],[1,1,1]]
          conn_start_id := 5
          tags := some [("GLOBAL_ID", .scalar [0,1,2])] })]
      sets := some { contents := some [5, 2]
                     setList := [⟨1, 0, 0, 8⟩]
                     tags := [("P", [6])] }
      max_id := 8 }
    { element_type := 2
      connectivity := [[1,1,1],[1,1,1],[1,1,1]]
      conn_start_id := 5
      tags := some [("GLOBAL_ID", .scalar [0,1,2])] }
    { contents := some [5, 2]
      setList := [⟨1, 0, 0, 8⟩]
      tags := [("P", [6])] }
    [5, 2] [0,1,2] rfl rfl rfl rfl).2 (by rfl)
  rw [h]
  rfl

/-- C10: a width-2 cells array is accepted by `write`, which creates an
`Edge2` element block, but `read` on the resulting container always
fails with the unsupported-mesh-type error, because it only accepts
`Tri3` or `Tet4` blocks. -/
theorem edge_write_read_asymmetry (alloc : Nat → List Int)
    (points : List (List Int)) (rows : List (List Int))
    (pd cd : Option (List (String × TagArray))) :
    ∃ f g, write points ⟨2, rows⟩ pd cd = .ok f ∧
      f.elements = [("Edge2", g)] ∧
      read alloc f = .error .needTriOrTet :=
  ⟨_, _, rfl, rfl, rfl⟩

/-- C6 counterexample: the backing array of a decoded set tag comes
from `numpy.empty`, which is uninitialized.  On a 3-cell block whose
single range-compressed row covers only cells 0 and 1, an allocation
filled with 7s leaves `7`, not `0`, at the uncovered index 2 — so
"every index not covered by any row holds zero/default" is false. -/
theorem set_decode_uncovered_not_zero :
    ∃ r, read (fun n => List.replicate n 7)
        { coordinates := [[0,0,0]]
          coords_start_id := 1
          node_tags := none
          global_tags := []
          elements := [("Tri3",
            { element_type := 2
              connectivity := [[1,1,1],[1,1,1],[1,1,1]]
              conn_start_id := 5
              tags := some [("GLOBAL_ID", .scalar [0,1,2])] })]
          sets := some { contents := some [5, 2]
                         setList := [⟨1, 0, 0, 8⟩]
                         tags := [("P", [6])] }
          max_id := 8 } = .ok r ∧
      r.cell_data.lookup "set::P" = some (.scalar [6, 6, 7]) ∧
      ([6, 6, 7] : List Int).getD 2 0 ≠ 0 :=
  ⟨_, rfl, rfl, by decide⟩

/-- C6 (amended): for a single-tag sets block with one range-compressed
row whose (start_gid, length) pairs all lie inside `[cs, ce]`, decoding
succeeds and stores, under key `"set::" + tag`, an array of the
allocation's length in which each pair's index range
`[start - cs, start + length - 1 - cs]` holds the row's value, and
every index covered by no pair retains the uninitialized allocation's
prior contents (not necessarily zero: `numpy.empty` does not clear). -/
theorem set_decode_compressed_row_fill (contents : List Int)
    (cs ce : Int) (row : SetRow) (v : Int)
    (hflag : is_range_compressed row.flags = true)
    (hin : ∀ p ∈ rowPairs contents 0 row, cs ≤ p.1 ∧ p.1 + p.2 - 1 ≤ ce) :
    ∀ (alloc : Nat → List Int) (key : String) (vals : List Int)
      (cd : List (String × TagArray)) (M : Nat),
      vals.get? 0 = some v →
      ∃ res, decodeAllSets alloc contents [row] cs ce M [(key, vals)] cd =
          .ok (dictInsert ("set::" ++ key) (.scalar res) cd) ∧
        res.length = (alloc M).length ∧
        ∀ j : Nat, res.getD j 0 =
          if ∃ p ∈ rowPairs contents 0 row,
              p.1 - cs ≤ (j : Int) ∧ (j : Int) ≤ p.1 + p.2 - 1 - cs ∧
                j < (alloc M).length
          then v else (alloc M).getD j 0 := by
  intro alloc key vals cd M hv
  obtain ⟨res, hres, hlen, hget⟩ :=
    decodeSetRow_compressed_ok contents cs ce 0 row v (alloc M) hflag hin
  refine ⟨res, ?_, hlen, hget⟩
  simp only [decodeAllSets, decodeTagRows, hv, hres]

/-- Concrete instance of `set_decode_compressed_row_fill`: contents
`[5, 2]` (one pair: start 5, length 2) on cells with global IDs 5..7
and an allocation of 7s produces `[6, 6, 7]` under `set::P`. -/
theorem set_decode_compressed_row_fill_witness :
    ∃ res, decodeAllSets (fun n => List.replicate n 7) [5, 2] [⟨1, 0, 0, 8⟩] 5 7 3
        [("P", [6])] [] = .ok (dictInsert ("set::" ++ "P") (.scalar res) []) ∧
      res.length = ((fun n => List.replicate n 7) 3 : List Int).length ∧
      ∀ j : Nat, res.getD j 0 =
        if ∃ p ∈ rowPairs [5, 2] 0 ⟨1, 0, 0, 8⟩,
            p.1 - 5 ≤ (j : Int) ∧ (j : Int) ≤ p.1 + p.2 - 1 - 5 ∧
              j < ((fun n => List.replicate n 7) 3 : List Int).length
        then 6 else ((fun n => List.replicate n 7) 3 : List Int).getD j 0 :=
  set_decode_compressed_row_fill [5, 2] 5 7 ⟨1, 0, 0, 8⟩ 6 rfl (by decide)
    (fun n => List.replicate n 7) "P" [6] [] 3 rfl

/-- C7: a non-range-compressed row's slice `contents[end : row[0]+1]`
is a direct list of global IDs, each assigned the row's value at local
index `gid - cell_start` (stated for gids inside the block, where no
numpy index wrapping occurs); and the cursor `end` starts at 0 and
advances to `row[0] + 1` after each row regardless of branch, as the
two unfolding equations for the row and tag loops exhibit. -/
theorem set_decode_explicit_row_and_cursor :
    (∀ (contents : List Int) (cs ce endCur : Int) (row : SetRow) (v : Int)
        (arr : List Int),
      is_range_compressed row.flags = false →
      (∀ g ∈ rowSlice contents endCur row,
        0 ≤ g - cs ∧ g - cs < (arr.length : Int)) →
      ∃ res, decodeSetRow contents cs ce endCur row v arr = .ok res ∧
        res.length = arr.length ∧
        ∀ j : Nat, res.getD j 0 =
          if ∃ g ∈ rowSlice contents endCur row, g - cs = (j : Int)
          then v else arr.getD j 0) ∧
    (∀ (contents : List Int) (cs ce : Int) (vals : List Int) (row : SetRow)
        (rest : List SetRow) (k : Nat) (endCur : Int) (arr : List Int),
      decodeTagRows contents cs ce vals (row :: rest) k endCur arr =
        match vals.get? k with
        | none => .error .indexError
        | some v =>
            match decodeSetRow contents cs ce endCur row v arr with
            | .error e => .error e
            | .ok arr2 =>
                decodeTagRows contents cs ce vals rest (k + 1) (row.rowEnd + 1) arr2) ∧
    (∀ (alloc : Nat → List Int) (contents : List Int) (rows : List SetRow)
        (cs ce : Int) (M : Nat) (key : String) (vals : List Int)
        (rest : List (String × List Int)) (cd : List (String × TagArray)),
      decodeAllSets alloc contents rows cs ce M ((key, vals) :: rest) cd =
        match decodeTagRows contents cs ce vals rows 0 0 (alloc M) with
        | .error e => .error e
        | .ok arr =>
            decodeAllSets alloc contents rows cs ce M rest
              (dictInsert ("set::" ++ key) (.scalar arr) cd)) := by
  refine ⟨?_, fun _ _ _ _ _ _ _ _ _ => rfl, fun _ _ _ _ _ _ _ _ _ _ => rfl⟩
  intro contents cs ce endCur row v arr hflag hin
  rw [decodeSetRow, if_neg (by simp [hflag])]
  have hb : ∀ i ∈ (rowSlice contents endCur row).map (fun g => g - cs),
      -(arr.length : Int) ≤ i ∧ i < arr.length := by
    intro i hi
    obtain ⟨g, hg, rfl⟩ := List.mem_map.mp hi
    have := hin g hg
    omega
  obtain ⟨res, hres, hlen, hget⟩ :=
    npFancySet_ok v ((rowSlice contents endCur row).map (fun g => g - cs)) arr hb
  refine ⟨res, hres, hlen, fun j => ?_⟩
  rw [hget j]
  refine if_congr ⟨?_, ?_⟩ rfl rfl
  · rintro ⟨i, hi, hn⟩
    obtain ⟨g, hg, rfl⟩ := List.mem_map.mp hi
    have h0 := (hin g hg).1
    refine ⟨g, hg, ?_⟩
    simp only [npNormIdx, if_pos h0] at hn
    omega
  · rintro ⟨g, hg, hgj⟩
    refine ⟨g - cs, List.mem_map.mpr ⟨g, hg, rfl⟩, ?_⟩
    have h0 := (hin g hg).1
    simp only [npNormIdx, if_pos h0]
    omega

/-- Concrete instance of `set_decode_explicit_row_and_cursor`: the
explicit gid list `[6, 5]` against a block starting at 5 assigns local
indices 1 and 0. -/
theorem set_decode_explicit_row_and_cursor_witness :
    ∃ res, decodeSetRow [6, 5] 5 6 0 ⟨1, 0, 0, 0⟩ 9 [0, 0] = .ok res ∧
      res.length = ([0, 0] : List Int).length ∧
      ∀ j : Nat, res.getD j 0 =
        if ∃ g ∈ rowSlice [6, 5] 0 ⟨1, 0, 0, 0⟩, g - 5 = (j : Int)
        then 9 else ([0, 0] : List Int).getD j 0 :=
  set_decode_explicit_row_and_cursor.1 [6, 5] 5 6 0 ⟨1, 0, 0, 0⟩ 9 [0, 0] rfl
    (by decide)

/-- C8 counterexample: an explicit-list set row naming global ID 4,
which lies outside the element block's range [5, 6] (i.e. a
point-targeted member), does NOT make `read` fail: numpy wraps the
negative local index `4 - 5 = -1` and silently assigns the last cell,
so `read` returns `.ok` with `set::P = [7, 9]`. -/
theorem set_decode_point_set_not_fatal :
    ∃ r, read (fun n => List.replicate n 7)
        { coordinates := [[0,0,0]]
          coords_start_id := 1
          node_tags := none
          global_tags := []
          elements := [("Tri3",
            { element_type := 2
              connectivity := [[1,1,1],[1,1,1]]
              conn_start_id := 5
              tags := some [("GLOBAL_ID", .scalar [0,1])] })]
          sets := some { contents := some [4]
                         setList := [⟨0, 0, 0, 0⟩]
                         tags := [("P", [9])] }
          max_id := 7 } = .ok r ∧
      r.cell_data.lookup "set::P" = some (.scalar [7, 9]) :=
  ⟨_, rfl, rfl⟩

/-- C8 (amended): a range-compressed row with any run outside the
block's global-ID range fails fatally (`RuntimeError`), and an explicit
row with a gid whose local index `gid - cs` falls below `-M` or at/above
`M` fails fatally (`IndexError`); but an explicit row whose local
indices all lie in `[-M, M)` succeeds even when some are negative —
numpy silently wraps such a point-targeted gid to index `M + (gid - cs)`
instead of failing. -/
theorem set_decode_out_of_range_outcomes :
    (∀ (contents : List Int) (cs ce endCur : Int) (row : SetRow) (v : Int)
        (arr : List Int),
      is_range_compressed row.flags = true →
      (∃ p ∈ rowPairs contents endCur row, ¬(cs ≤ p.1 ∧ p.1 + p.2 - 1 ≤ ce)) →
      decodeSetRow contents cs ce endCur row v arr = .error .runtimeError) ∧
    (∀ (contents : List Int) (cs ce endCur : Int) (row : SetRow) (v : Int)
        (arr : List Int),
      is_range_compressed row.flags = false →
      (∃ g ∈ rowSlice contents endCur row,
        g - cs < -(arr.length : Int) ∨ (arr.length : Int) ≤ g - cs) →
      decodeSetRow contents cs ce endCur row v arr = .error .indexError) ∧
    (∀ (contents : List Int) (cs ce endCur : Int) (row : SetRow) (v : Int)
        (arr : List Int),
      is_range_compressed row.flags = false →
      (∀ g ∈ rowSlice contents endCur row,
        -(arr.length : Int) ≤ g - cs ∧ g - cs < (arr.length : Int)) →
      ∃ res, decodeSetRow contents cs ce endCur row v arr = .ok res ∧
        res.length = arr.length ∧
        ∀ j : Nat, res.getD j 0 =
          if ∃ g ∈ rowSlice contents endCur row, npNormIdx arr.length (g - cs) = j
          then v else arr.getD j 0) := by
  refine ⟨?_, ?_, ?_⟩
  · intro contents cs ce endCur row v arr hflag hout
    rw [decodeSetRow, if_pos hflag]
    exact decodePairs_error cs ce v (rowPairs contents endCur row) arr hout
  · intro contents cs ce endCur row v arr hflag hout
    rw [decodeSetRow, if_neg (by simp [hflag])]
    apply npFancySet_error
    obtain ⟨g, hg, hbad⟩ := hout
    exact ⟨g - cs, List.mem_map.mpr ⟨g, hg, rfl⟩, hbad⟩
  · intro contents cs ce endCur row v arr hflag hin
    rw [decodeSetRow, if_neg (by simp [hflag])]
    have hb : ∀ i ∈ (rowSlice contents endCur row).map (fun g => g - cs),
        -(arr.length : Int) ≤ i ∧ i < arr.length := by
      intro i hi
      obtain ⟨g, hg, rfl⟩ := List.mem_map.mp hi
      exact hin g hg
    obtain ⟨res, hres, hlen, hget⟩ :=
      npFancySet_ok v ((rowSlice contents endCur row).map (fun g => g - cs)) arr hb
    refine ⟨res, hres, hlen, fun j => ?_⟩
    rw [hget j]
    refine if_congr ⟨?_, ?_⟩ rfl rfl
    · rintro ⟨i, hi, hn⟩
      obtain ⟨g, hg, rfl⟩ := List.mem_map.mp hi
      exact ⟨g, hg, hn⟩
    · rintro ⟨g, hg, hgj⟩
      exact ⟨g - cs, List.mem_map.mpr ⟨g, hg, rfl⟩, hgj⟩

/-- Concrete instance of `set_decode_out_of_range_outcomes`: the
range-compressed run (10, 1) lies outside the block range [5, 6] and is
rejected with the fatal `RuntimeError`. -/
theorem set_decode_out_of_range_outcomes_witness :
    decodeSetRow [10, 1] 5 6 0 ⟨1, 0, 0, 8⟩ 9 [0, 0] = .error .runtimeError :=
  set_decode_out_of_range_outcomes.1 [10, 1] 5 6 0 ⟨1, 0, 0, 8⟩ 9 [0, 0] rfl
    ⟨(10, 1), by decide, by decide⟩

end H5MIO
